import Mathlib

/-!
Verification of the ffmonitor client library (`src/lib.rs`).

The development shallowly embeds the library's pure core:
* the per-kind event line grammars (Rust `regex` patterns, all anchored
  `^...$`), embedded through a small leftmost-first backtracking matcher
  whose search order coincides with the leftmost-first capture semantics
  of the `regex` crate on these patterns;
* the frame classifier loop of `listen` (lib.rs lines 264-325), including
  the multi-line email block collection;
* the line framer of `listen` (lines 246-262): `read_line`, the
  unconditional `line.pop()`, and the `begin`/`end` markers;
* the notification dispatcher closure of `Monitor::new_internal`
  (lines 380-395) with its two delivery modes, and `Monitor::poll`;
* the worker reconnect loop of `Monitor::new_internal` (lines 397-404).

Machine integers: `i32`/`u64`/`usize` parses are modelled as `Int`/`Nat`
with the explicit range check `str::parse` performs (a 64-bit platform is
assumed for `usize`).  Rust `Result` values are collapsed to `Option`
since the classifier only distinguishes success from failure.  Character
predicates (`char::is_whitespace`, `\d`, lowercasing) are modelled by
their ASCII behaviour, which coincides with Rust's on ASCII input.
-/

/-- Character classes occurring in the wire-format regexes: `.`
(any character except a newline, the regex crate's default) and `\d`. -/
inductive CClass where
  | dot
  | digit
deriving DecidableEq

def CClass.test : CClass → Char → Bool
  | .dot, c => c ≠ '\n'
  | .digit, c => c.isDigit

/-- Quantifiers occurring in the wire-format regexes. -/
inductive Quant where
  | plusGreedy
  | plusLazy
  | starGreedy
deriving DecidableEq

/-- Minimal number of characters a quantified class must consume. -/
def Quant.minLen : Quant → Nat
  | .plusGreedy => 1
  | .plusLazy => 1
  | .starGreedy => 0

/-- One item of an anchored regex.  The six patterns of lib.rs are
sequences of: literals, capture groups around one quantified class
(`(.+?)`, `(.+)`, `(.*)`, `(\d+)`), the signed-number capture `(-?\d+)`,
and the optional clause `(?: \(to (.+)\))?` of the chat pattern. -/
inductive RItem where
  | lit (s : String)
  | cap (idx : Nat) (cls : CClass) (q : Quant)
  | num (idx : Nat)
  | toClause (idx : Nat)

/-- Candidate consumption lengths for a quantified class, in the order a
leftmost-first (Perl-style, as documented by the regex crate) engine
tries them: greedy from the longest run down, lazy from the shortest up. -/
def quantCandidates (q : Quant) (maxRun : Nat) : List Nat :=
  match q with
  | .plusGreedy => (List.range' 1 maxRun).reverse
  | .plusLazy => List.range' 1 maxRun
  | .starGreedy => (List.range' 0 (maxRun + 1)).reverse

/-- For `(-?\d+)`: split the input into the consumed optional minus sign
and the remainder the digit run is matched against. -/
def numSplit (input : List Char) : List Char × List Char :=
  match input with
  | '-' :: tl => (['-'], tl)
  | _ => ([], input)

/-- Anchored leftmost-first matcher: `matchItems items input` returns the
captures of the first match of the concatenation of `items` against the
whole of `input` (the patterns all carry `^` and `$`), or `none`. -/
def matchItems : List RItem → List Char → Option (List (Nat × String))
  | [], input => if input = [] then some [] else none
  | .lit s :: rest, input =>
    if s.data.isPrefixOf input then matchItems rest (input.drop s.data.length)
    else none
  | .cap i cls q :: rest, input =>
    let maxRun := (input.takeWhile cls.test).length
    (quantCandidates q maxRun).findSome? fun k =>
      (matchItems rest (input.drop k)).map fun caps =>
        (i, String.mk (input.take k)) :: caps
  | .num i :: rest, input =>
    -- `(-?\d+)`: an optional minus sign, then a greedy digit run.
    let st := numSplit input
    let maxRun := (st.2.takeWhile Char.isDigit).length
    ((List.range' 1 maxRun).reverse).findSome? fun k =>
      (matchItems rest (st.2.drop k)).map fun caps =>
        (i, String.mk (st.1 ++ st.2.take k)) :: caps
  | .toClause i :: rest, input =>
    -- `(?: \(to (.+)\))?`: a greedy optional group, tried with the
    -- clause first, falling back to skipping it.
    let withClause : Option (List (Nat × String)) :=
      if (" (to ").data.isPrefixOf input then
        let inp := input.drop 5
        let maxRun := (inp.takeWhile CClass.dot.test).length
        ((List.range' 1 maxRun).reverse).findSome? fun k =>
          if [')'].isPrefixOf (inp.drop k) then
            (matchItems rest (inp.drop (k + 1))).map fun caps =>
              (i, String.mk (inp.take k)) :: caps
          else none
      else none
    match withClause with
    | some caps => some caps
    | none => matchItems rest input

/-- First capture with the given index (mirrors `captures.get(i)`). -/
def lookupCap (caps : List (Nat × String)) (i : Nat) : Option String :=
  match caps with
  | [] => none
  | (j, s) :: rest => if j = i then some s else lookupCap rest i

/-- Numeric value of a digit run, as `str::parse` computes it. -/
def digitsToNat (s : List Char) : Nat :=
  s.foldl (fun a c => a * 10 + (c.toNat - ('0').toNat)) 0

/-- `str::parse::<i32>` on a `-?\d+` capture: value with the i32 range
check (overflow is a parse error in Rust). -/
def parseI32 (s : String) : Option Int :=
  let v : Int :=
    match s.data with
    | '-' :: tl => -(digitsToNat tl : Int)
    | l => (digitsToNat l : Int)
  if -(2 ^ 31) ≤ v ∧ v < 2 ^ 31 then some v else none

/-- `str::parse::<u64>` (and `usize` on the assumed 64-bit platform) on a
`\d+` capture: value with the unsigned 64-bit range check. -/
def parseU64 (s : String) : Option Nat :=
  let v := digitsToNat s.data
  if v < 2 ^ 64 then some v else none

/-- `PlayerEvent` (lib.rs lines 30-52). -/
structure PlayerEvent where
  x_coord : Int
  y_coord : Int
  name : String
deriving DecidableEq

/-- `^player (-?\d+) (-?\d+) (.+)$` -/
def playerPattern : List RItem :=
  [.lit "player ", .num 1, .lit " ", .num 2, .lit " ", .cap 3 .dot .plusGreedy]

/-- `PlayerEvent::parse` (lib.rs lines 37-51). -/
def PlayerEvent.parse (line : String) : Option PlayerEvent := do
  let caps ← matchItems playerPattern line.data
  let xs ← lookupCap caps 1
  let ys ← lookupCap caps 2
  let name ← lookupCap caps 3
  let x ← parseI32 xs
  let y ← parseI32 ys
  some { x_coord := x, y_coord := y, name := name }

/-- `ChatKind` (lib.rs lines 54-65). -/
inductive ChatKind where
  | FreeChat
  | MenuChat
  | BuddyChat
  | BuddyMenuChat
  | GroupChat
  | GroupMenuChat
  | TradeChat
  | Unknown (raw : String)
deriving DecidableEq

/-- ASCII lowercasing, as `str::to_lowercase` acts on ASCII input. -/
def toLowerStr (s : String) : String := String.mk (s.data.map Char.toLower)

/-- `From<&str> for ChatKind` (lib.rs lines 66-79); never fails. -/
def ChatKind.ofStr (s : String) : ChatKind :=
  match toLowerStr s with
  | "freechat" => .FreeChat
  | "menuchat" => .MenuChat
  | "buddychat" => .BuddyChat
  | "buddymenuchat" => .BuddyMenuChat
  | "groupchat" => .GroupChat
  | "groupmenuchat" => .GroupMenuChat
  | "tradechat" => .TradeChat
  | _ => .Unknown s

/-- `ChatEvent` (lib.rs lines 96-102); `from` is a Lean keyword, so the
fields are spelled `from_` (and `to_`, since `to` is also a keyword). -/
structure ChatEvent where
  kind : ChatKind
  from_ : String
  to_ : Option String
  message : String
deriving DecidableEq

/-- `^chat \[(.+?)\] (.+?)(?: \(to (.+)\))?: (.*)$` -/
def chatPattern : List RItem :=
  [.lit "chat [", .cap 1 .dot .plusLazy, .lit "] ", .cap 2 .dot .plusLazy,
   .toClause 3, .lit ": ", .cap 4 .dot .starGreedy]

/-- `ChatEvent::parse` (lib.rs lines 103-122); `captures.get(3)` is the
optional `to` clause. -/
def ChatEvent.parse (line : String) : Option ChatEvent := do
  let caps ← matchItems chatPattern line.data
  let kindRaw ← lookupCap caps 1
  let sender ← lookupCap caps 2
  let message ← lookupCap caps 4
  some { kind := ChatKind.ofStr kindRaw, from_ := sender,
         to_ := lookupCap caps 3, message := message }

/-- `BroadcastScope` (lib.rs lines 124-130). -/
inductive BroadcastScope where
  | Local
  | Channel
  | Shard
  | Global
deriving DecidableEq

/-- `TryFrom<usize> for BroadcastScope` (lib.rs lines 131-143); the error
value is collapsed to `none`. -/
def BroadcastScope.tryFrom (value : Nat) : Option BroadcastScope :=
  match value with
  | 0 => some .Local
  | 1 => some .Channel
  | 2 => some .Shard
  | 3 => some .Global
  | _ => none

/-- `BroadcastEvent` (lib.rs lines 145-152). -/
structure BroadcastEvent where
  scope : BroadcastScope
  announcement_type : Nat
  duration_secs : Nat
  from_ : String
  message : String
deriving DecidableEq

/-- `^bcast (\d+) (\d+) (\d+) (.+?): (.*)$` -/
def bcastPattern : List RItem :=
  [.lit "bcast ", .cap 1 .digit .plusGreedy, .lit " ", .cap 2 .digit .plusGreedy,
   .lit " ", .cap 3 .digit .plusGreedy, .lit " ", .cap 4 .dot .plusLazy,
   .lit ": ", .cap 5 .dot .starGreedy]

/-- `BroadcastEvent::parse` (lib.rs lines 153-173). -/
def BroadcastEvent.parse (line : String) : Option BroadcastEvent := do
  let caps ← matchItems bcastPattern line.data
  let scopeRaw ← lookupCap caps 1
  let atRaw ← lookupCap caps 2
  let durRaw ← lookupCap caps 3
  let sender ← lookupCap caps 4
  let message ← lookupCap caps 5
  let scopeNum ← parseU64 scopeRaw
  let scope ← BroadcastScope.tryFrom scopeNum
  let announcement_type ← parseU64 atRaw
  let duration_secs ← parseU64 durRaw
  some { scope := scope, announcement_type := announcement_type,
         duration_secs := duration_secs, from_ := sender, message := message }

/-- `EmailEvent` (lib.rs lines 175-181). -/
structure EmailEvent where
  from_ : String
  to_ : String
  subject : Option String
  body : List String
deriving DecidableEq

/-- `^email \[Email\] (.+?) \(to (.+?)\): <(.+)>$` -/
def emailPattern : List RItem :=
  [.lit "email [Email] ", .cap 1 .dot .plusLazy, .lit " (to ",
   .cap 2 .dot .plusLazy, .lit "): <", .cap 3 .dot .plusGreedy, .lit ">"]

/-- `EmailEvent::parse` (lib.rs lines 182-203); the body is passed in by
the classifier, already collected. -/
def EmailEvent.parse (header : String) (body : List String) : Option EmailEvent := do
  let caps ← matchItems emailPattern header.data
  let sender ← lookupCap caps 1
  let to_ ← lookupCap caps 2
  let subjectRaw ← lookupCap caps 3
  let subject := if subjectRaw = "No subject." then none else some subjectRaw
  some { from_ := sender, to_ := to_, subject := subject, body := body }

/-- `NameRequestEvent` (lib.rs lines 205-209). -/
structure NameRequestEvent where
  player_uid : Nat
  requested_name : String
deriving DecidableEq

/-- `^namereq (\d+) (.+)$` -/
def namereqPattern : List RItem :=
  [.lit "namereq ", .cap 1 .digit .plusGreedy, .lit " ", .cap 2 .dot .plusGreedy]

/-- `NameRequestEvent::parse` (lib.rs lines 210-224). -/
def NameRequestEvent.parse (line : String) : Option NameRequestEvent := do
  let caps ← matchItems namereqPattern line.data
  let uidRaw ← lookupCap caps 1
  let requested_name ← lookupCap caps 2
  let player_uid ← parseU64 uidRaw
  some { player_uid := player_uid, requested_name := requested_name }

/-- `Event` (lib.rs lines 226-234). -/
inductive Event where
  | Player (e : PlayerEvent)
  | Chat (e : ChatEvent)
  | Broadcast (e : BroadcastEvent)
  | Email (e : EmailEvent)
  | NameRequest (e : NameRequestEvent)
deriving DecidableEq

/-- `get_first_token` (lib.rs lines 236-238): first
whitespace-delimited token of a line, `none` for an all-whitespace line. -/
def firstToken (line : String) : Option String :=
  match line.data.dropWhile Char.isWhitespace with
  | [] => none
  | rest => some (String.mk (rest.takeWhile fun c => !c.isWhitespace))

/-- `str::starts_with` on a string (or single-character) pattern. -/
def strStartsWith (s pre : String) : Bool :=
  pre.data.isPrefixOf s.data

/-- `str::trim_start`: strip all leading whitespace. -/
def trimStart (s : String) : String :=
  String.mk (s.data.dropWhile Char.isWhitespace)

/-- Effect of one frame line on the classifier, outside an email block:
one constructor per arm of the `match get_first_token(&first_line)`
dispatch in `listen` (lib.rs lines 267-323).  `startEmail` is the
`Some("email")` arm; `drop` covers the parse-failure branches, the
`Some(_)` unknown-token arm and the `None` empty-line arm, all of which
log and `continue`. -/
inductive LineStep where
  | startEmail
  | event (e : Event)
  | drop

/-- The token dispatch of `listen` (lib.rs lines 267-323), literal
match arms rendered as an equality chain in source order. -/
def lineStep (first_line : String) : LineStep :=
  match firstToken first_line with
  | none => .drop
  | some tok =>
    if tok = "player" then
      match PlayerEvent.parse first_line with
      | some e => .event (.Player e)
      | none => .drop
    else if tok = "chat" then
      match ChatEvent.parse first_line with
      | some e => .event (.Chat e)
      | none => .drop
    else if tok = "bcast" then
      match BroadcastEvent.parse first_line with
      | some e => .event (.Broadcast e)
      | none => .drop
    else if tok = "email" then .startEmail
    else if tok = "namereq" then
      match NameRequestEvent.parse first_line with
      | some e => .event (.NameRequest e)
      | none => .drop
    else .drop

/-- The event produced by a single non-email line, if any. -/
def lineEvent (l : String) : Option Event :=
  match lineStep l with
  | .event e => some e
  | _ => none

/-- The `while !lines.is_empty()` classifier loop of `listen` (lib.rs
lines 264-325), written as a structurally recursive state machine.  The
state `some (header, body)` is the email body-collection inner loop
(lines 289-307): while the next line starts with a tab it is consumed
and pushed trimmed; at the first other line, if it starts with
`endemail` it is consumed and the header parsed with the collected body,
otherwise the partial event is dropped and that line is reprocessed by
the ordinary dispatch (the Rust `continue` without consuming it);
exhausting the frame mid-collection also drops the partial event. -/
def processLinesAux : Option (String × List String) → List String → List Event
  | none, [] => []
  | some _, [] => []
  | none, l :: ls =>
    match lineStep l with
    | .startEmail => processLinesAux (some (l, [])) ls
    | .event e => e :: processLinesAux none ls
    | .drop => processLinesAux none ls
  | some (header, body), l :: ls =>
    if strStartsWith l "\t" then
      processLinesAux (some (header, body ++ [trimStart l])) ls
    else if strStartsWith l "endemail" then
      match EmailEvent.parse header body with
      | some e => Event.Email e :: processLinesAux none ls
      | none => processLinesAux none ls
    else
      match lineStep l with
      | .startEmail => processLinesAux (some (l, [])) ls
      | .event e => e :: processLinesAux none ls
      | .drop => processLinesAux none ls

/-- The events assembled from one closed frame (lib.rs lines 264-325). -/
def processLines (lines : List String) : List Event :=
  processLinesAux none lines

/-- `MonitorUpdate` (lib.rs lines 331-334). -/
structure MonitorUpdate where
  events : List Event
deriving DecidableEq

/-- `MonitorUpdate::get_events` (lib.rs lines 337-339). -/
def MonitorUpdate.get_events (u : MonitorUpdate) : List Event :=
  u.events

/-- `MonitorUpdate::get_player_count` (lib.rs lines 341-346). -/
def MonitorUpdate.get_player_count (u : MonitorUpdate) : Nat :=
  u.events.countP fun e =>
    match e with
    | .Player _ => true
    | _ => false

/-- The framing loop of `listen` (lib.rs lines 246-262) on framed lines:
`begin` clears the buffer, `end` closes the frame and emits an update,
any other line is appended.  End of stream drops a partial frame. -/
def framerLoop : List String → List String → List MonitorUpdate
  | [], _ => []
  | line :: rest, lines =>
    if line = "begin" then framerLoop rest []
    else if line ≠ "end" then framerLoop rest (lines ++ [line])
    else MonitorUpdate.mk (processLines lines) :: framerLoop rest []

/-- The `read_line`/`pop` framing of `listen` (lib.rs lines 246-252): a
line is every chunk up to and including a newline (or up to end of
stream), and `line.pop()` then removes its last character
unconditionally.  `acc` is the partially read line. -/
def streamToLinesAux (acc : List Char) : List Char → List String
  | [] => if acc = [] then [] else [String.mk acc.dropLast]
  | c :: cs =>
    if c = '\n' then String.mk ((acc ++ [c]).dropLast) :: streamToLinesAux [] cs
    else streamToLinesAux (acc ++ [c]) cs

/-- All framed lines read from a raw character stream before the
zero-byte read that signals disconnection. -/
def streamToLines (stream : List Char) : List String :=
  streamToLinesAux [] stream

/-- The full `listen` pipeline on a raw character stream: framed lines
through the `begin`/`end` framer and the classifier, yielding the
updates passed to the callback (lib.rs lines 240-329). -/
def runMonitorStream (stream : List Char) : List MonitorUpdate :=
  framerLoop (streamToLines stream) []

/-- `MonitorNotification` (lib.rs lines 23-28). -/
inductive MonitorNotification where
  | Connected
  | Updated (u : MonitorUpdate)
  | Disconnected
deriving DecidableEq

/-- The shared state written by the dispatcher closure of
`Monitor::new_internal` (lib.rs lines 374-395): the atomic connected
flag, the mutex-guarded last-update snapshot, and the mpsc channel
contents drained by `poll`. -/
structure DispatcherState where
  connected : Bool
  last_update : Option MonitorUpdate
  queue : List MonitorUpdate
deriving DecidableEq

/-- State at construction (lib.rs lines 374-376): disconnected, no last
update, empty channel. -/
def initialState : DispatcherState :=
  DispatcherState.mk false none []

/-- The dispatcher closure (lib.rs lines 380-395).  `hasUserCallback` is
`user_callback.is_some()`, fixed at construction.  Returns the new
shared state and the notifications forwarded to the user callback (the
`if let Some(cb) = &user_callback` tail invokes it on every
notification). -/
def dispatch (hasUserCallback : Bool) (s : DispatcherState)
    (n : MonitorNotification) : DispatcherState × List MonitorNotification :=
  let s' :=
    match n with
    | .Connected => { s with connected := true }
    | .Updated u =>
      { s with last_update := some u,
               queue := if hasUserCallback then s.queue else s.queue ++ [u] }
    | .Disconnected => { s with connected := false }
  (s', if hasUserCallback then [n] else [])

/-- Dispatch of a whole notification sequence, accumulating the
callback invocations in order. -/
def dispatchAll (hasUserCallback : Bool) :
    DispatcherState → List MonitorNotification →
    DispatcherState × List MonitorNotification
  | s, [] => (s, [])
  | s, n :: ns =>
    let p := dispatch hasUserCallback s n
    let q := dispatchAll hasUserCallback p.1 ns
    (q.1, p.2 ++ q.2)

/-- `Monitor::poll` (lib.rs lines 418-420): `rx.try_recv().ok()`, the
oldest buffered update if any. -/
def pollModel (s : DispatcherState) : Option MonitorUpdate × DispatcherState :=
  match s.queue with
  | [] => (none, s)
  | u :: rest => (some u, { s with queue := rest })

/-- How one `listen` call ends: `TcpStream::connect_timeout` failing
(the `?` on lib.rs line 242 propagates `Err`), or the read loop
detecting end of stream / a read failure (lib.rs lines 248-251, which
emit `Disconnected` and `return Ok(())`). -/
inductive ListenExit where
  | connectFailure
  | streamEnded

/-- The value `listen` returns to the worker loop for each exit. -/
def listenResult : ListenExit → Except String Unit
  | .connectFailure => Except.error "connect failed"
  | .streamEnded => Except.ok ()

/-- Seconds slept by one iteration of the worker loop of
`Monitor::new_internal` (lib.rs lines 397-404): `thread::sleep(1s)`
is executed only inside `if let Err(err) = listen(..)`. -/
def workerIterationSleepSecs (e : ListenExit) : Nat :=
  match listenResult e with
  | .error _ => 1
  | .ok _ => 0

/-- A frame decomposed into classifier units: a single non-email line,
or a whole email block (header, tab-prefixed body lines, and its
`endemail` terminator). -/
inductive FrameUnit where
  | line (s : String)
  | emailBlock (header : String) (body : List String) (endLine : String)

/-- The frame lines a unit occupies, in wire order. -/
def FrameUnit.flatten : FrameUnit → List String
  | .line s => [s]
  | .emailBlock h b e => h :: b ++ [e]

/-- Shape conditions making a unit decomposition match the classifier's
consumption: a `line` unit is any line not opening an email block, an
`emailBlock` unit has an `email` header, tab-prefixed body lines and an
`endemail` terminator. -/
def FrameUnit.wf : FrameUnit → Prop
  | .line s => firstToken s ≠ some "email"
  | .emailBlock h b e =>
    firstToken h = some "email" ∧ (∀ l ∈ b, strStartsWith l "\t" = true) ∧
      strStartsWith e "endemail" = true

instance (u : FrameUnit) : Decidable u.wf :=
  match u with
  | .line _ => inferInstanceAs (Decidable (_ ≠ _))
  | .emailBlock _ _ _ => inferInstanceAs (Decidable (_ ∧ _ ∧ _))

/-- The event a unit contributes: its line's event, or the email event
of its header with the trimmed body (lib.rs lines 289-307). -/
def FrameUnit.parseUnit : FrameUnit → Option Event
  | .line s => lineEvent s
  | .emailBlock h b _ => (EmailEvent.parse h (b.map trimStart)).map Event.Email

/-- Concatenation of the lines of a list of units. -/
def flattenUnits (us : List FrameUnit) : List String :=
  us.foldr (fun u acc => u.flatten ++ acc) []

/-- A successful anchored match decomposes the input into consecutive
per-item segments carrying the returned captures; this records the
decomposition independently of the engine's search order. -/
inductive MatchShape : List RItem → List Char → List (Nat × String) → Prop where
  | nil : MatchShape [] [] []
  | lit (s : String) (rest : List RItem) (input : List Char)
      (caps : List (Nat × String)) :
      MatchShape rest input caps →
      MatchShape (RItem.lit s :: rest) (s.data ++ input) caps
  | cap (i : Nat) (cls : CClass) (q : Quant) (seg : List Char)
      (rest : List RItem) (input : List Char) (caps : List (Nat × String)) :
      q.minLen ≤ seg.length → (∀ c ∈ seg, cls.test c = true) →
      MatchShape rest input caps →
      MatchShape (RItem.cap i cls q :: rest) (seg ++ input)
        ((i, String.mk seg) :: caps)
  | num (i : Nat) (sign seg : List Char) (rest : List RItem)
      (input : List Char) (caps : List (Nat × String)) :
      sign = [] ∨ sign = ['-'] → seg ≠ [] → (∀ c ∈ seg, c.isDigit = true) →
      MatchShape rest input caps →
      MatchShape (RItem.num i :: rest) (sign ++ seg ++ input)
        ((i, String.mk (sign ++ seg)) :: caps)
  | toClauseSome (i : Nat) (seg : List Char) (rest : List RItem)
      (input : List Char) (caps : List (Nat × String)) :
      seg ≠ [] → (∀ c ∈ seg, CClass.dot.test c = true) →
      MatchShape rest input caps →
      MatchShape (RItem.toClause i :: rest)
        ((" (to ").data ++ seg ++ [')'] ++ input) ((i, String.mk seg) :: caps)
  | toClauseNone (i : Nat) (rest : List RItem) (input : List Char)
      (caps : List (Nat × String)) :
      MatchShape rest input caps →
      MatchShape (RItem.toClause i :: rest) input caps

theorem prefixOf_exists {l₁ l₂ : List Char} (h : l₁.isPrefixOf l₂ = true) :
    ∃ t, l₂ = l₁ ++ t := by
  induction l₁ generalizing l₂ with
  | nil => exact ⟨l₂, rfl⟩
  | cons a as ih =>
    cases l₂ with
    | nil => simp [List.isPrefixOf] at h
    | cons b bs =>
      simp only [List.isPrefixOf, Bool.and_eq_true, beq_iff_eq] at h
      obtain ⟨rfl, h2⟩ := h
      obtain ⟨t, rfl⟩ := ih h2
      exact ⟨t, rfl⟩

theorem takeWhile_length_le (p : Char → Bool) (l : List Char) :
    (l.takeWhile p).length ≤ l.length :=
  (List.takeWhile_sublist p).length_le

theorem take_all_test (p : Char → Bool) :
    ∀ (l : List Char) (k : Nat), k ≤ (l.takeWhile p).length →
      ∀ c ∈ l.take k, p c = true := by
  intro l
  induction l with
  | nil => intro k _ c hc; simp at hc
  | cons a as ih =>
    intro k hk c hc
    by_cases hpa : p a = true
    · rw [List.takeWhile_cons, if_pos hpa] at hk
      cases k with
      | zero => simp at hc
      | succ k' =>
        rw [List.take_succ_cons] at hc
        rcases List.mem_cons.mp hc with rfl | hc'
        · exact hpa
        · exact ih k' (by simpa using hk) c hc'
    · rw [List.takeWhile_cons, if_neg hpa] at hk
      simp only [List.length_nil, Nat.le_zero] at hk
      subst hk
      simp at hc

theorem mem_quantCandidates {q : Quant} {maxRun k : Nat}
    (h : k ∈ quantCandidates q maxRun) : q.minLen ≤ k ∧ k ≤ maxRun := by
  cases q <;>
    simp only [quantCandidates, Quant.minLen, List.mem_reverse,
      List.mem_range'_1] at h ⊢ <;>
    omega

theorem mem_revRange {maxRun k : Nat}
    (h : k ∈ (List.range' 1 maxRun).reverse) : 1 ≤ k ∧ k ≤ maxRun := by
  simp only [List.mem_reverse, List.mem_range'_1] at h
  omega

theorem numSplit_spec (input : List Char) :
    input = (numSplit input).1 ++ (numSplit input).2 ∧
      ((numSplit input).1 = [] ∨ (numSplit input).1 = ['-']) := by
  unfold numSplit
  split
  · simp
  · simp

theorem matchItems_sound : ∀ (items : List RItem) (input : List Char)
    (caps : List (Nat × String)), matchItems items input = some caps →
    MatchShape items input caps := by
  intro items
  induction items with
  | nil =>
    intro input caps h
    simp only [matchItems] at h
    split at h
    · next hin =>
      injection h with h2
      subst hin
      rw [← h2]
      exact MatchShape.nil
    · cases h
  | cons it rest ih =>
    intro input caps h
    cases it with
    | lit s =>
      simp only [matchItems] at h
      split at h
      · next hpre =>
        obtain ⟨t, rfl⟩ := prefixOf_exists hpre
        rw [List.drop_left] at h
        exact MatchShape.lit s rest t caps (ih t caps h)
      · cases h
    | cap i cls q =>
      simp only [matchItems] at h
      obtain ⟨k, hk, hfk⟩ := List.exists_of_findSome?_eq_some h
      rw [Option.map_eq_some'] at hfk
      obtain ⟨caps', hm, hcap⟩ := hfk
      obtain ⟨hmin, hmax⟩ := mem_quantCandidates hk
      have hlen : (input.take k).length = k := by
        rw [List.length_take]
        exact min_eq_left (le_trans hmax (takeWhile_length_le _ _))
      have hms := MatchShape.cap i cls q (input.take k) rest (input.drop k)
        caps' (by rw [hlen]; exact hmin) (take_all_test cls.test input k hmax)
        (ih _ _ hm)
      rw [List.take_append_drop] at hms
      rw [← hcap]
      exact hms
    | num i =>
      simp only [matchItems] at h
      obtain ⟨k, hk, hfk⟩ := List.exists_of_findSome?_eq_some h
      rw [Option.map_eq_some'] at hfk
      obtain ⟨caps', hm, hcap⟩ := hfk
      obtain ⟨hone, hmax⟩ := mem_revRange hk
      obtain ⟨hjoin, hsign⟩ := numSplit_spec input
      have hlen : ((numSplit input).2.take k).length = k := by
        rw [List.length_take]
        exact min_eq_left (le_trans hmax (takeWhile_length_le _ _))
      have hne : (numSplit input).2.take k ≠ [] := by
        intro hnil
        rw [hnil] at hlen
        simp at hlen
        omega
      have hms := MatchShape.num i (numSplit input).1 ((numSplit input).2.take k)
        rest ((numSplit input).2.drop k) caps' hsign hne
        (take_all_test Char.isDigit _ k hmax) (ih _ _ hm)
      rw [List.append_assoc, List.take_append_drop, ← hjoin] at hms
      rw [← hcap]
      exact hms
    | toClause i =>
      simp only [matchItems] at h
      split at h
      · next caps0 hw =>
        -- the with-clause branch succeeded
        injection h with h2
        subst h2
        by_cases hpre : (" (to ").data.isPrefixOf input = true
        · rw [if_pos hpre] at hw
          obtain ⟨t, rfl⟩ := prefixOf_exists hpre
          have hdrop : ((" (to ").data ++ t).drop 5 = t := by
            have : ((" (to ").data).length = 5 := rfl
            rw [← this, List.drop_left]
          rw [hdrop] at hw
          obtain ⟨k, hk, hfk⟩ := List.exists_of_findSome?_eq_some hw
          obtain ⟨hone, hmax⟩ := mem_revRange hk
          split at hfk
          · next hpar =>
            rw [Option.map_eq_some'] at hfk
            obtain ⟨caps', hm, hcap⟩ := hfk
            obtain ⟨t2, ht2⟩ := prefixOf_exists hpar
            have ht2' : t.drop (k + 1) = t2 := by
              rw [← List.drop_drop, ht2]
              rfl
            rw [ht2'] at hm
            have hlen : (t.take k).length = k := by
              rw [List.length_take]
              exact min_eq_left (le_trans hmax (takeWhile_length_le _ _))
            have hne : t.take k ≠ [] := by
              intro hnil
              rw [hnil] at hlen
              simp at hlen
              omega
            have hms := MatchShape.toClauseSome i (t.take k) rest t2 caps' hne
              (take_all_test CClass.dot.test t k hmax) (ih _ _ hm)
            have hsplit : t = t.take k ++ ([')'] ++ t2) := by
              conv_lhs => rw [← List.take_append_drop k t]
              rw [ht2]
            have hms' : MatchShape (RItem.toClause i :: rest)
                ((" (to ").data ++ (t.take k ++ ([')'] ++ t2)))
                ((i, String.mk (t.take k)) :: caps') := by
              rw [show (" (to ").data ++ (t.take k ++ ([')'] ++ t2)) =
                  (" (to ").data ++ t.take k ++ [')'] ++ t2 by
                simp [List.append_assoc]]
              exact hms
            rw [← hsplit] at hms'
            rw [← hcap]
            exact hms'
          · cases hfk
        · rw [if_neg hpre] at hw
          cases hw
      · next hw =>
        exact MatchShape.toClauseNone i rest input caps (ih input caps h)

theorem lineStep_spec (l tok : String) (ht : firstToken l = some tok) :
    lineStep l =
      (if tok = "player" then
        match PlayerEvent.parse l with
        | some e => LineStep.event (Event.Player e)
        | none => LineStep.drop
      else if tok = "chat" then
        match ChatEvent.parse l with
        | some e => LineStep.event (Event.Chat e)
        | none => LineStep.drop
      else if tok = "bcast" then
        match BroadcastEvent.parse l with
        | some e => LineStep.event (Event.Broadcast e)
        | none => LineStep.drop
      else if tok = "email" then LineStep.startEmail
      else if tok = "namereq" then
        match NameRequestEvent.parse l with
        | some e => LineStep.event (Event.NameRequest e)
        | none => LineStep.drop
      else LineStep.drop) := by
  unfold lineStep
  rw [ht]

theorem lineStep_none (l : String) (ht : firstToken l = none) :
    lineStep l = LineStep.drop := by
  unfold lineStep
  rw [ht]

theorem lineStep_email (l : String) (ht : firstToken l = some "email") :
    lineStep l = LineStep.startEmail := by
  rw [lineStep_spec l "email" ht, if_neg (by decide), if_neg (by decide),
    if_neg (by decide), if_pos rfl]

theorem lineStep_ne_startEmail (l : String) (ht : firstToken l ≠ some "email") :
    lineStep l ≠ LineStep.startEmail := by
  cases h : firstToken l with
  | none => rw [lineStep_none l h]; simp
  | some tok =>
    rw [lineStep_spec l tok h]
    by_cases h1 : tok = "player"
    · rw [if_pos h1]; cases PlayerEvent.parse l <;> simp
    · rw [if_neg h1]
      by_cases h2 : tok = "chat"
      · rw [if_pos h2]; cases ChatEvent.parse l <;> simp
      · rw [if_neg h2]
        by_cases h3 : tok = "bcast"
        · rw [if_pos h3]; cases BroadcastEvent.parse l <;> simp
        · rw [if_neg h3]
          by_cases h4 : tok = "email"
          · exact absurd (h4 ▸ h) ht
          · rw [if_neg h4]
            by_cases h5 : tok = "namereq"
            · rw [if_pos h5]; cases NameRequestEvent.parse l <;> simp
            · rw [if_neg h5]; simp

theorem lineStep_bcast_drop (l : String) (ht : firstToken l = some "bcast")
    (hp : BroadcastEvent.parse l = none) : lineStep l = LineStep.drop := by
  rw [lineStep_spec l "bcast" ht, if_neg (by decide), if_neg (by decide),
    if_pos rfl, hp]

theorem procAux_none_cons (l : String) (ls : List String) :
    processLinesAux none (l :: ls) =
      (match lineStep l with
      | LineStep.startEmail => processLinesAux (some (l, [])) ls
      | LineStep.event e => e :: processLinesAux none ls
      | LineStep.drop => processLinesAux none ls) := rfl

theorem procAux_some_cons (header l : String) (body : List String)
    (ls : List String) :
    processLinesAux (some (header, body)) (l :: ls) =
      (if strStartsWith l "\t" then
        processLinesAux (some (header, body ++ [trimStart l])) ls
      else if strStartsWith l "endemail" then
        match EmailEvent.parse header body with
        | some e => Event.Email e :: processLinesAux none ls
        | none => processLinesAux none ls
      else
        match lineStep l with
        | LineStep.startEmail => processLinesAux (some (l, [])) ls
        | LineStep.event e => e :: processLinesAux none ls
        | LineStep.drop => processLinesAux none ls) := rfl

theorem procAux_some_nil (p : String × List String) :
    processLinesAux (some p) [] = [] := rfl

theorem procAux_cons_simple (l : String) (ls : List String)
    (h : lineStep l ≠ LineStep.startEmail) :
    processLinesAux none (l :: ls) =
      (lineEvent l).toList ++ processLinesAux none ls := by
  rw [procAux_none_cons]
  unfold lineEvent
  cases hs : lineStep l with
  | startEmail => exact absurd hs h
  | event e => simp
  | drop => simp

theorem tab_false_of_endemail (e : String)
    (he : strStartsWith e "endemail" = true) : strStartsWith e "\t" = false := by
  unfold strStartsWith at he ⊢
  obtain ⟨t, ht⟩ := prefixOf_exists he
  rw [ht]
  rfl

theorem procAux_collect : ∀ (b : List String) (header : String)
    (acc rest : List String), (∀ l ∈ b, strStartsWith l "\t" = true) →
    processLinesAux (some (header, acc)) (b ++ rest) =
      processLinesAux (some (header, acc ++ b.map trimStart)) rest := by
  intro b
  induction b with
  | nil => intro header acc rest _; simp
  | cons x xs ih =>
    intro header acc rest hb
    have hx : strStartsWith x "\t" = true := hb x (List.mem_cons_self x xs)
    have hxs : ∀ l ∈ xs, strStartsWith l "\t" = true :=
      fun l hl => hb l (List.mem_cons_of_mem x hl)
    rw [List.cons_append, procAux_some_cons, if_pos hx,
      ih header (acc ++ [trimStart x]) rest hxs]
    simp [List.append_assoc]

theorem procAux_endemail (header e : String) (body : List String)
    (rest : List String) (he : strStartsWith e "endemail" = true) :
    processLinesAux (some (header, body)) (e :: rest) =
      ((EmailEvent.parse header body).map Event.Email).toList ++
        processLinesAux none rest := by
  have htab := tab_false_of_endemail e he
  rw [procAux_some_cons, if_neg (by simp [htab]), if_pos he]
  cases EmailEvent.parse header body <;> simp

theorem procAux_abandon (header l : String) (body : List String)
    (ls : List String) (h1 : strStartsWith l "\t" = false)
    (h2 : strStartsWith l "endemail" = false) :
    processLinesAux (some (header, body)) (l :: ls) =
      processLinesAux none (l :: ls) := by
  rw [procAux_some_cons, if_neg (by simp [h1]), if_neg (by simp [h2]),
    procAux_none_cons]

theorem procAux_emailBlock (h e : String) (b rest : List String)
    (hh : firstToken h = some "email")
    (hb : ∀ l ∈ b, strStartsWith l "\t" = true)
    (he : strStartsWith e "endemail" = true) :
    processLinesAux none (h :: (b ++ e :: rest)) =
      ((EmailEvent.parse h (b.map trimStart)).map Event.Email).toList ++
        processLinesAux none rest := by
  rw [procAux_none_cons, lineStep_email h hh]
  show processLinesAux (some (h, [])) (b ++ e :: rest) = _
  rw [procAux_collect b h [] (e :: rest) hb]
  simp only [List.nil_append]
  exact procAux_endemail h e (b.map trimStart) rest he

theorem strApp_data (a b : String) : (a ++ b).data = a.data ++ b.data := rfl

theorem MatchShape_nil_inv {input : List Char} {caps : List (Nat × String)}
    (h : MatchShape [] input caps) : input = [] ∧ caps = [] := by
  cases h
  exact ⟨rfl, rfl⟩

theorem MatchShape_lit_inv {s : String} {rest : List RItem}
    {input : List Char} {caps : List (Nat × String)}
    (h : MatchShape (RItem.lit s :: rest) input caps) :
    ∃ input', input = s.data ++ input' ∧ MatchShape rest input' caps := by
  cases h
  next input' h' => exact ⟨input', rfl, h'⟩

theorem MatchShape_cap_inv {i : Nat} {cls : CClass} {q : Quant}
    {rest : List RItem} {input : List Char} {caps : List (Nat × String)}
    (h : MatchShape (RItem.cap i cls q :: rest) input caps) :
    ∃ seg input' caps', input = seg ++ input' ∧
      caps = (i, String.mk seg) :: caps' ∧ q.minLen ≤ seg.length ∧
      (∀ c ∈ seg, cls.test c = true) ∧ MatchShape rest input' caps' := by
  cases h
  next seg input' caps' hall hmin h' =>
    exact ⟨seg, input', caps', rfl, rfl, hmin, hall, h'⟩

theorem MatchShape_num_inv {i : Nat} {rest : List RItem}
    {input : List Char} {caps : List (Nat × String)}
    (h : MatchShape (RItem.num i :: rest) input caps) :
    ∃ sign seg input' caps', input = sign ++ seg ++ input' ∧
      caps = (i, String.mk (sign ++ seg)) :: caps' ∧
      (sign = [] ∨ sign = ['-']) ∧ seg ≠ [] ∧
      (∀ c ∈ seg, c.isDigit = true) ∧ MatchShape rest input' caps' := by
  cases h
  next sign seg input' caps' hsign hne hdig h' =>
    exact ⟨sign, seg, input', caps', rfl, rfl, hsign, hne, hdig, h'⟩

theorem MatchShape_toClause_inv {i : Nat} {rest : List RItem}
    {input : List Char} {caps : List (Nat × String)}
    (h : MatchShape (RItem.toClause i :: rest) input caps) :
    (∃ seg input' caps',
      input = (" (to ").data ++ seg ++ [')'] ++ input' ∧
      caps = (i, String.mk seg) :: caps' ∧ seg ≠ [] ∧
      (∀ c ∈ seg, CClass.dot.test c = true) ∧ MatchShape rest input' caps') ∨
    MatchShape rest input caps := by
  cases h
  case toClauseSome seg input' caps' hne hall h' =>
    exact Or.inl ⟨seg, input', caps', rfl, rfl, hne, hall, h'⟩
  case toClauseNone h' => exact Or.inr h'

theorem mkData (l : List Char) : (String.mk l).data = l := rfl

/-- C7: for every successfully parsed chat line, the parse decomposes
the line according to the grammar: the event has `to = none` exactly
when the matched line carries no `(to X)` clause, in which case the line
reads `chat [<kind>] <from>: <message>`; when it carries the clause
`(to X)`, the event has `to = some X` and the line reads
`chat [<kind>] <from> (to <X>): <message>`.  In particular a line
containing no ` (to ` substring parses with `to = none`. -/
theorem C7_chat_to_clause (line : String) (ev : ChatEvent)
    (hp : ChatEvent.parse line = some ev) :
    (∃ kraw : String, ev.kind = ChatKind.ofStr kraw ∧
      ((ev.to_ = none ∧
        line = "chat [" ++ kraw ++ "] " ++ ev.from_ ++ ": " ++ ev.message) ∨
       (∃ t : String, ev.to_ = some t ∧
        line = "chat [" ++ kraw ++ "] " ++ ev.from_ ++ " (to " ++ t ++ "): " ++
          ev.message))) ∧
    (¬ List.IsInfix (" (to ").data line.data → ev.to_ = none) := by
  unfold ChatEvent.parse at hp
  cases hm : matchItems chatPattern line.data with
  | none => rw [hm] at hp; simp at hp
  | some caps =>
    rw [hm] at hp
    simp only [Option.bind_eq_bind, Option.some_bind] at hp
    have hs := matchItems_sound chatPattern line.data caps hm
    simp only [chatPattern] at hs
    obtain ⟨i1, he1, hs⟩ := MatchShape_lit_inv hs
    obtain ⟨seg1, i2, caps1, he2, hcap1, hmin1, hall1, hs⟩ := MatchShape_cap_inv hs
    obtain ⟨i3, he3, hs⟩ := MatchShape_lit_inv hs
    obtain ⟨seg2, i4, caps2, he4, hcap2, hmin2, hall2, hs⟩ := MatchShape_cap_inv hs
    rcases MatchShape_toClause_inv hs with
      ⟨seg3, i5, caps3, he5, hcap3, hne3, hall3, hs⟩ | hs
    · -- the clause was matched
      obtain ⟨i6, he6, hs⟩ := MatchShape_lit_inv hs
      obtain ⟨seg4, i7, caps4, he7, hcap4, hmin4, hall4, hs⟩ := MatchShape_cap_inv hs
      obtain ⟨hi7, hcap5⟩ := MatchShape_nil_inv hs
      subst hcap1 hcap2 hcap3 hcap4 hcap5
      simp only [lookupCap, if_pos, if_neg] at hp
      norm_num at hp
      subst hp
      constructor
      · refine ⟨String.mk seg1, rfl, Or.inr ⟨String.mk seg3, rfl, ?_⟩⟩
        apply String.ext
        rw [he1, he2, he3, he4, he5, he6, he7, hi7]
        simp [strApp_data, mkData, List.append_assoc]
      · intro hni
        exfalso
        apply hni
        rw [he1, he2, he3, he4, he5]
        exact ⟨("chat [").data ++ seg1 ++ ("] ").data ++ seg2,
          seg3 ++ [')'] ++ i5, by simp [List.append_assoc]⟩
    · -- no clause
      obtain ⟨i5, he5, hs⟩ := MatchShape_lit_inv hs
      obtain ⟨seg4, i6, caps3, he6, hcap3, hmin4, hall4, hs⟩ := MatchShape_cap_inv hs
      obtain ⟨hi6, hcap4⟩ := MatchShape_nil_inv hs
      subst hcap1 hcap2 hcap3 hcap4
      simp only [lookupCap, if_pos, if_neg] at hp
      norm_num at hp
      subst hp
      constructor
      · refine ⟨String.mk seg1, rfl, Or.inl ⟨rfl, ?_⟩⟩
        apply String.ext
        rw [he1, he2, he3, he4, he5, he6, hi6]
        simp [strApp_data, mkData, List.append_assoc]
      · intro _
        rfl

/-- C1: for every frame decomposed into well-formed classifier units
(single non-email lines and complete email blocks), the classifier
produces exactly the events of the units that parse, in original
relative order; malformed, unrecognized and empty lines contribute
nothing and abort nothing. -/
theorem C1_classifier_filter (us : List FrameUnit) (hwf : ∀ u ∈ us, u.wf) :
    processLines (flattenUnits us) = us.filterMap FrameUnit.parseUnit := by
  induction us with
  | nil => rfl
  | cons u us' ih =>
    have hu := hwf u (List.mem_cons_self u us')
    have hus' : ∀ v ∈ us', v.wf := fun v hv => hwf v (List.mem_cons_of_mem u hv)
    cases u with
    | line s =>
      have hns : lineStep s ≠ LineStep.startEmail := lineStep_ne_startEmail s hu
      show processLinesAux none (s :: flattenUnits us') = _
      rw [procAux_cons_simple s _ hns]
      show (lineEvent s).toList ++ processLines (flattenUnits us') = _
      rw [ih hus', List.filterMap_cons]
      cases hle : lineEvent s
      · simp [FrameUnit.parseUnit, hle]
      · simp [FrameUnit.parseUnit, hle]
    | emailBlock h b e =>
      obtain ⟨hh, hb, he⟩ := hu
      have hfl : flattenUnits (FrameUnit.emailBlock h b e :: us') =
          h :: (b ++ e :: flattenUnits us') := by
        show (h :: b ++ [e]) ++ flattenUnits us' = _
        simp [List.append_assoc]
      show processLinesAux none (flattenUnits (FrameUnit.emailBlock h b e :: us')) = _
      rw [hfl, procAux_emailBlock h e b (flattenUnits us') hh hb he]
      show _ ++ processLines (flattenUnits us') = _
      rw [ih hus', List.filterMap_cons]
      cases hp : EmailEvent.parse h (b.map trimStart)
      · simp [FrameUnit.parseUnit, hp]
      · simp [FrameUnit.parseUnit, hp]

/-- Witness for C1 on a concrete frame mixing good lines, bad lines and
an email block. -/
theorem C1_witness :
    (∀ u ∈ [FrameUnit.line "player 1 2 A", FrameUnit.line "junk!",
      FrameUnit.emailBlock "email [Email] A (to B): <S>" ["\tx"] "endemail",
      FrameUnit.line "", FrameUnit.line "chat [FreeChat] A: hi"], u.wf) ∧
    processLines (flattenUnits [FrameUnit.line "player 1 2 A",
      FrameUnit.line "junk!",
      FrameUnit.emailBlock "email [Email] A (to B): <S>" ["\tx"] "endemail",
      FrameUnit.line "", FrameUnit.line "chat [FreeChat] A: hi"]) =
      List.filterMap FrameUnit.parseUnit [FrameUnit.line "player 1 2 A",
        FrameUnit.line "junk!",
        FrameUnit.emailBlock "email [Email] A (to B): <S>" ["\tx"] "endemail",
        FrameUnit.line "", FrameUnit.line "chat [FreeChat] A: hi"] :=
  ⟨by decide, C1_classifier_filter _ (by decide)⟩

/-- C2 counterexample: the code strips ALL leading whitespace from a
body line (`trim_start`), not exactly one tab, and a blank line ends
body collection (and, not starting with `endemail`, kills the whole
email event) rather than being included verbatim. -/
theorem C2_counterexample :
    processLines ["email [Email] Alice (to Bob): <Hi>", "\t\tpayload",
        "endemail"] =
      [Event.Email (EmailEvent.mk "Alice" "Bob" (some "Hi") ["payload"])] ∧
    ("payload" : String) ≠ "\tpayload" ∧
    processLines ["email [Email] A (to B): <S>", "\ta", "", "\tb",
        "endemail"] = [] :=
  ⟨rfl, by decide, rfl⟩

/-- C2 (amended): the email body is the longest run of following lines
that start with a tab, in input order, each with all leading whitespace
stripped (`trim_start`); collection ends at the first line not starting
with a tab (so a blank line ends the body), and the event is produced
exactly when that line starts with `endemail`, which is consumed and
discarded. -/
theorem C2_email_body (h e : String) (b rest : List String)
    (hh : firstToken h = some "email")
    (hb : ∀ l ∈ b, strStartsWith l "\t" = true)
    (he : strStartsWith e "endemail" = true) :
    processLines (h :: (b ++ e :: rest)) =
      ((EmailEvent.parse h (b.map trimStart)).map Event.Email).toList ++
        processLines rest :=
  procAux_emailBlock h e b rest hh hb he

/-- Witness for C2 on a concrete email block. -/
theorem C2_witness :
    processLines ["email [Email] Alice (to Bob): <Hi>", "\t\tpayload",
        "endemail"] =
      ((EmailEvent.parse "email [Email] Alice (to Bob): <Hi>"
        (["\t\tpayload"].map trimStart)).map Event.Email).toList ++
        processLines [] :=
  C2_email_body "email [Email] Alice (to Bob): <Hi>" "endemail"
    ["\t\tpayload"] [] (by decide) (by decide) (by decide)

/-- C3 counterexample: after an established connection drops, `listen`
returns `Ok(())`, so the worker loop's backoff branch is skipped — the
sleep before the next reconnect attempt is 0 seconds, not 1. -/
theorem C3_counterexample :
    workerIterationSleepSecs ListenExit.streamEnded = 0 ∧ (0 : Nat) ≠ 1 :=
  ⟨rfl, by decide⟩

/-- C3 (amended): the fixed 1-second backoff is slept only after a
failed connect attempt; after an established connection drops the
worker retries immediately, with no backoff. -/
theorem C3_backoff :
    workerIterationSleepSecs ListenExit.connectFailure = 1 ∧
    workerIterationSleepSecs ListenExit.streamEnded = 0 :=
  ⟨rfl, rfl⟩

/-- C4: the literal frame `begin` / `player 10 -20 Captain Courage` /
`chat [FreeChat] Captain Courage: Hello world!` / `end` yields one
Update with exactly the player event followed by the chat event, and
its player count is 1. -/
theorem C4_round_trip :
    framerLoop ["begin", "player 10 -20 Captain Courage",
        "chat [FreeChat] Captain Courage: Hello world!", "end"] [] =
      [MonitorUpdate.mk
        [Event.Player (PlayerEvent.mk 10 (-20) "Captain Courage"),
         Event.Chat (ChatEvent.mk ChatKind.FreeChat "Captain Courage" none
           "Hello world!")]] ∧
    MonitorUpdate.get_player_count (MonitorUpdate.mk
        [Event.Player (PlayerEvent.mk 10 (-20) "Captain Courage"),
         Event.Chat (ChatEvent.mk ChatKind.FreeChat "Captain Courage" none
           "Hello world!")]) = 1 :=
  ⟨rfl, rfl⟩

/-- C5: an email block whose `endemail` terminator is missing (the
frame's lines run out mid-collection, or collection stops at a line that
does not start with `endemail`) produces no email event, and the
remaining lines of the frame are processed exactly as they would be on
their own. -/
theorem C5_missing_endemail (h : String) (b rest : List String)
    (hh : firstToken h = some "email")
    (hb : ∀ l ∈ b, strStartsWith l "\t" = true)
    (hr : match rest with
          | [] => True
          | l :: _ => strStartsWith l "\t" = false ∧
              strStartsWith l "endemail" = false) :
    processLines (h :: (b ++ rest)) = processLines rest := by
  show processLinesAux none (h :: (b ++ rest)) = _
  rw [procAux_none_cons, lineStep_email h hh]
  show processLinesAux (some (h, [])) (b ++ rest) = _
  rw [procAux_collect b h [] rest hb]
  cases rest with
  | nil => rfl
  | cons l ls =>
    obtain ⟨h1, h2⟩ := hr
    rw [procAux_abandon h l ([] ++ b.map trimStart) ls h1 h2]
    rfl

/-- Witness for C5: a dangling email header followed by a valid player
line; the player event still parses. -/
theorem C5_witness :
    processLines ["email [Email] A (to B): <S>", "player 1 2 Bob"] =
      processLines ["player 1 2 Bob"] :=
  C5_missing_endemail "email [Email] A (to B): <S>" [] ["player 1 2 Bob"]
    (by decide) (by decide) (by decide)

/-- C6: `bcast` scope codes 0, 1, 2, 3 map to Local, Channel, Shard,
Global; any other code fails that line's parse only — the line is
dropped and the surrounding lines of the frame parse normally. -/
theorem C6_bcast_scope :
    (BroadcastScope.tryFrom 0 = some BroadcastScope.Local ∧
     BroadcastScope.tryFrom 1 = some BroadcastScope.Channel ∧
     BroadcastScope.tryFrom 2 = some BroadcastScope.Shard ∧
     BroadcastScope.tryFrom 3 = some BroadcastScope.Global) ∧
    (∀ n : Nat, 3 < n → BroadcastScope.tryFrom n = none) ∧
    (∀ (l : String) (rest : List String), firstToken l = some "bcast" →
      BroadcastEvent.parse l = none →
      processLines (l :: rest) = processLines rest) ∧
    processLines ["player 1 2 A", "bcast 4 0 5 Sys: hi", "player 3 4 B"] =
      [Event.Player (PlayerEvent.mk 1 2 "A"),
       Event.Player (PlayerEvent.mk 3 4 "B")] := by
  refine ⟨⟨rfl, rfl, rfl, rfl⟩, ?_, ?_, rfl⟩
  · intro n hn
    obtain ⟨m, rfl⟩ : ∃ m, n = m + 4 := ⟨n - 4, by omega⟩
    rfl
  · intro l rest ht hp
    have hd := lineStep_bcast_drop l ht hp
    show processLinesAux none (l :: rest) = _
    rw [procAux_cons_simple l rest (by rw [hd]; simp)]
    simp [lineEvent, hd]
    rfl

/-- Witness for C6 at scope code 4. -/
theorem C6_witness :
    BroadcastScope.tryFrom 4 = none ∧
    processLines ["bcast 4 0 5 Sys: hi", "player 3 4 B"] =
      processLines ["player 3 4 B"] :=
  ⟨C6_bcast_scope.2.1 4 (by decide),
   C6_bcast_scope.2.2.1 "bcast 4 0 5 Sys: hi" ["player 3 4 B"] (by decide) rfl⟩

/-- Witness for C7 at a concrete directed chat line. -/
theorem C7_witness :
    ∃ kraw : String,
      (ChatEvent.mk ChatKind.FreeChat "Alice" (some "Bob") "psst").kind =
        ChatKind.ofStr kraw ∧
      (((ChatEvent.mk ChatKind.FreeChat "Alice" (some "Bob") "psst").to_ =
          none ∧
        "chat [FreeChat] Alice (to Bob): psst" =
          "chat [" ++ kraw ++ "] " ++
            (ChatEvent.mk ChatKind.FreeChat "Alice" (some "Bob") "psst").from_
            ++ ": " ++
            (ChatEvent.mk ChatKind.FreeChat "Alice" (some "Bob") "psst").message) ∨
       (∃ t : String,
        (ChatEvent.mk ChatKind.FreeChat "Alice" (some "Bob") "psst").to_ =
          some t ∧
        "chat [FreeChat] Alice (to Bob): psst" =
          "chat [" ++ kraw ++ "] " ++
            (ChatEvent.mk ChatKind.FreeChat "Alice" (some "Bob") "psst").from_
            ++ " (to " ++ t ++ "): " ++
            (ChatEvent.mk ChatKind.FreeChat "Alice" (some "Bob") "psst").message)) :=
  (C7_chat_to_clause "chat [FreeChat] Alice (to Bob): psst"
    (ChatEvent.mk ChatKind.FreeChat "Alice" (some "Bob") "psst") rfl).1

/-- C8: in callback mode the dispatcher never enqueues onto the buffered
queue, so `poll()` always returns nothing, while the user callback is
invoked with every notification in order. -/
theorem C8_callback_mode :
    ∀ ns : List MonitorNotification,
      (dispatchAll true initialState ns).1.queue = [] ∧
      (pollModel (dispatchAll true initialState ns).1).1 = none ∧
      (dispatchAll true initialState ns).2 = ns := by
  have key : ∀ (s : DispatcherState) (ns : List MonitorNotification),
      (dispatchAll true s ns).1.queue = s.queue ∧
      (dispatchAll true s ns).2 = ns := by
    intro s ns
    induction ns generalizing s with
    | nil => exact ⟨rfl, rfl⟩
    | cons n ns ih =>
      constructor
      · show (dispatchAll true (dispatch true s n).1 ns).1.queue = s.queue
        rw [(ih _).1]
        cases n <;> rfl
      · show (dispatch true s n).2 ++
            (dispatchAll true (dispatch true s n).1 ns).2 = n :: ns
        rw [(ih _).2]
        cases n <;> rfl
  intro ns
  obtain ⟨h1, h2⟩ := key initialState ns
  refine ⟨h1, ?_, h2⟩
  have h1' : (dispatchAll true initialState ns).1.queue = [] := h1
  unfold pollModel
  rw [h1']

/-- C9: dispatching `Connected` or `Disconnected` changes only the
connected flag — the last-update snapshot and the buffered queue are
untouched — and once the snapshot holds an update no notification
sequence ever resets it to nothing. -/
theorem C9_conn_notifications :
    ∀ (cb : Bool) (s : DispatcherState) (n : MonitorNotification),
      ((n = MonitorNotification.Connected ∨
        n = MonitorNotification.Disconnected) →
        (dispatch cb s n).1.last_update = s.last_update ∧
        (dispatch cb s n).1.queue = s.queue) ∧
      (∀ ns : List MonitorNotification, s.last_update.isSome = true →
        ((dispatchAll cb s ns).1.last_update).isSome = true) := by
  have mono : ∀ (cb : Bool) (s : DispatcherState)
      (ns : List MonitorNotification), s.last_update.isSome = true →
      ((dispatchAll cb s ns).1.last_update).isSome = true := by
    intro cb s ns
    induction ns generalizing s with
    | nil => intro h; exact h
    | cons n ns ih =>
      intro h
      show ((dispatchAll cb (dispatch cb s n).1 ns).1.last_update).isSome = true
      apply ih
      cases n with
      | Connected => exact h
      | Updated u => rfl
      | Disconnected => exact h
  intro cb s n
  constructor
  · rintro (rfl | rfl) <;> exact ⟨rfl, rfl⟩
  · intro ns h
    exact mono cb s ns h

/-- Witness for C9 from a state already holding a last update. -/
theorem C9_witness :
    ((dispatch true (DispatcherState.mk false (some (MonitorUpdate.mk [])) [])
        MonitorNotification.Connected).1.last_update =
        some (MonitorUpdate.mk []) ∧
      (dispatch true (DispatcherState.mk false (some (MonitorUpdate.mk [])) [])
        MonitorNotification.Connected).1.queue = []) ∧
    ((dispatchAll true
        (DispatcherState.mk false (some (MonitorUpdate.mk [])) [])
        [MonitorNotification.Disconnected]).1.last_update).isSome = true :=
  ⟨(C9_conn_notifications true
      (DispatcherState.mk false (some (MonitorUpdate.mk [])) [])
      MonitorNotification.Connected).1 (Or.inl rfl),
   (C9_conn_notifications true
      (DispatcherState.mk false (some (MonitorUpdate.mk [])) [])
      MonitorNotification.Connected).2 [MonitorNotification.Disconnected] rfl⟩

/-- C10: the framer removes the last character of every line returned by
a successful non-empty read, newline or not: a final line with no
trailing newline loses its last content character, and a CRLF line keeps
its carriage return, so `end` followed by CRLF does not close a frame. -/
theorem C10_pop_last_char :
    (∀ stream : List Char, stream ≠ [] → '\n' ∉ stream →
      streamToLines stream = [String.mk stream.dropLast]) ∧
    streamToLines ("end\r\n").data = ["end\r"] ∧
    ("end\r" : String) ≠ "end" ∧
    runMonitorStream ("begin\nplayer 10 -20 A\nend\r\n").data = [] := by
  have aux : ∀ (s acc : List Char), '\n' ∉ s → (acc ≠ [] ∨ s ≠ []) →
      streamToLinesAux acc s = [String.mk ((acc ++ s).dropLast)] := by
    intro s
    induction s with
    | nil =>
      intro acc _ hne
      have hacc : acc ≠ [] := by
        rcases hne with h | h
        · exact h
        · exact absurd rfl h
      simp [streamToLinesAux, hacc]
    | cons c cs ih =>
      intro acc hnl hne
      have hc : c ≠ '\n' := by
        intro hcc
        exact hnl (hcc ▸ List.mem_cons_self c cs)
      show streamToLinesAux acc (c :: cs) = _
      rw [streamToLinesAux, if_neg hc,
        ih (acc ++ [c]) (fun hm => hnl (List.mem_cons_of_mem c hm))
          (Or.inl (by simp))]
      simp
  refine ⟨?_, rfl, by decide, rfl⟩
  intro stream h1 h2
  have := aux stream [] h2 (Or.inr h1)
  simpa [streamToLines] using this

/-- Witness for C10 on the newline-less stream `ab`. -/
theorem C10_witness :
    ("ab" : String).data ≠ [] ∧ '\n' ∉ ("ab" : String).data ∧
    streamToLines ("ab").data = [String.mk ("ab").data.dropLast] :=
  ⟨by decide, by decide, C10_pop_last_char.1 ("ab").data (by decide) (by decide)⟩
